import Mathlib

/-!
# ChaCha20 (IETF variant, RFC 8439) — verification of the implementation

A shallow embedding of `src/chacha20_ietf.rs`.  Machine words are `Nat`
reduced modulo `2^32` at every operation that can overflow; byte buffers are
`List Nat`.  The helper macros of the crate (`read32_le!`, `write32_le!`,
`add!`, `xor!`, `or!`, `shl!`, `shr!`), the crate error type and the two
collaborator types (`CipherInfo`, the secure RNG) are not part of the
translated source file; they are modelled from the specification, as marked
on each definition.
-/

set_option maxRecDepth 100000

namespace ChaCha

/-- `2^32`, the word modulus. -/
def M32 : Nat := 4294967296

/-- Modelled from the spec: the `add!` macro, wrapping 32-bit addition. -/
def add32 (x y : Nat) : Nat := (x + y) % M32

/-- Modelled from the spec: the `xor!` macro, bitwise XOR on 32-bit words. -/
def xor32 (x y : Nat) : Nat := Nat.xor x y

/-- Modelled from the spec: the `shl!` macro, wrapping 32-bit left shift. -/
def shl32 (x k : Nat) : Nat := (x <<< k) % M32

/-- Modelled from the spec: the `shr!` macro, logical 32-bit right shift. -/
def shr32 (x k : Nat) : Nat := x >>> k

/-- Modelled from the spec: the `or!` macro, bitwise OR on 32-bit words. -/
def or32 (x y : Nat) : Nat := Nat.lor x y

/-- Modelled from the spec: the `read32_le!` macro, reading four bytes of a
slice as a little-endian 32-bit word. -/
def read32_le (bs : List Nat) : Nat :=
  bs.getD 0 0 + bs.getD 1 0 * 256 + bs.getD 2 0 * 65536 + bs.getD 3 0 * 16777216

/-- Modelled from the spec: the `write32_le!` macro, serializing a 32-bit
word as four little-endian bytes. -/
def write32_le (x : Nat) : List Nat :=
  [x % 256, x / 256 % 256, x / 65536 % 256, x / 16777216 % 256]

/-- The ChaCha20 constants (`CONSTANTS` in `chacha20`). -/
def CONSTANTS : List Nat := [0x61707865, 0x3320646e, 0x79622d32, 0x6b206574]

/-- `key_words` of `chacha20`: the key read as 8 little-endian 32-bit words. -/
def keyWords (key : List Nat) : List Nat :=
  (List.range 8).map (fun i => read32_le (key.drop (i * 4)))

/-- `nonce_words` of `chacha20`: the nonce read as 3 little-endian words. -/
def nonceWords (nonce : List Nat) : List Nat :=
  (List.range 3).map (fun i => read32_le (nonce.drop (i * 4)))

/-- The initial state matrix assembled by `chacha20` before the rounds:
constants, key words, counter, nonce words.  The counter parameter of the
Rust function is a `u32`, hence the reduction modulo `2^32`. -/
def initState (key nonce : List Nat) (n : Nat) : List Nat :=
  CONSTANTS ++ keyWords key ++ [n % M32] ++ nonceWords nonce

/-- The `quarterround!` macro body of `chacha20`, translated step by step:
twelve in-place updates of the state at indices `a b c d`. -/
def quarterround (a b c d : Nat) (s : List Nat) : List Nat :=
  let s := s.set a (add32 (s.getD a 0) (s.getD b 0))
  let s := s.set d (xor32 (s.getD d 0) (s.getD a 0))
  let s := s.set d (or32 (shl32 (s.getD d 0) 16) (shr32 (s.getD d 0) 16))
  let s := s.set c (add32 (s.getD c 0) (s.getD d 0))
  let s := s.set b (xor32 (s.getD b 0) (s.getD c 0))
  let s := s.set b (or32 (shl32 (s.getD b 0) 12) (shr32 (s.getD b 0) 20))
  let s := s.set a (add32 (s.getD a 0) (s.getD b 0))
  let s := s.set d (xor32 (s.getD d 0) (s.getD a 0))
  let s := s.set d (or32 (shl32 (s.getD d 0) 8) (shr32 (s.getD d 0) 24))
  let s := s.set c (add32 (s.getD c 0) (s.getD d 0))
  let s := s.set b (xor32 (s.getD b 0) (s.getD c 0))
  let s := s.set b (or32 (shl32 (s.getD b 0) 7) (shr32 (s.getD b 0) 25))
  s

/-- One iteration of the round loop of `chacha20`: the eight quarter-rounds,
four column rounds followed by four diagonal rounds, in source order. -/
def doubleRound (s : List Nat) : List Nat :=
  quarterround 3 4 9 14 <| quarterround 2 7 8 13 <|
  quarterround 1 6 11 12 <| quarterround 0 5 10 15 <|
  quarterround 3 7 11 15 <| quarterround 2 6 10 14 <|
  quarterround 1 5 9 13 <| quarterround 0 4 8 12 s

/-- The round loop of `chacha20`: `for _ in 0..10` of `doubleRound`. -/
def chachaRounds (s : List Nat) : List Nat := doubleRound^[10] s

/-- The `chacha20` block function: assemble the state, run the rounds, and
serialize `state[i] + initial-word[i]` little-endian, with the four
finalization loops of the source (constants, key words, counter, nonce
words). -/
def chacha20 (key nonce : List Nat) (n : Nat) : List Nat :=
  let kw := keyWords key
  let nw := nonceWords nonce
  let st := chachaRounds (initState key nonce n)
  ((List.range 4).map (fun i => write32_le (add32 (st.getD i 0) (CONSTANTS.getD i 0)))).flatten ++
  ((List.range 8).map (fun i => write32_le (add32 (st.getD (4 + i) 0) (kw.getD i 0)))).flatten ++
  write32_le (add32 (st.getD 12 0) n) ++
  ((List.range 3).map (fun i => write32_le (add32 (st.getD (13 + i) 0) (nw.getD i 0)))).flatten

/-- The RFC 8439 §2.3.2 test key: bytes `0x00` through `0x1f`. -/
def rfcKey : List Nat := List.range 32

/-- The nonce named by the specification's single-block vector:
`00 00 00 00 00 00 00 4a 00 00 00 00` (this is the §2.4.2 encryption nonce). -/
def specNonce : List Nat := [0, 0, 0, 0, 0, 0, 0, 0x4a, 0, 0, 0, 0]

/-- The actual RFC 8439 §2.3.2 block-function test nonce:
`00 00 00 09 00 00 00 4a 00 00 00 00`. -/
def rfcNonce232 : List Nat := [0, 0, 0, 9, 0, 0, 0, 0x4a, 0, 0, 0, 0]

/-- The RFC 8439 §2.3.2 expected keystream block for counter 1. -/
def rfcBlock1 : List Nat :=
  [0x10, 0xf1, 0xe7, 0xe4, 0xd1, 0x3b, 0x59, 0x15, 0x50, 0x0f, 0xdd, 0x1f,
   0xa3, 0x20, 0x71, 0xc4, 0xc7, 0xd1, 0xf4, 0xc7, 0x33, 0xc0, 0x68, 0x03,
   0x04, 0x22, 0xaa, 0x9a, 0xc3, 0xd4, 0x6c, 0x4e, 0xd2, 0x82, 0x64, 0x46,
   0x07, 0x9f, 0xaa, 0x09, 0x14, 0xc2, 0xd7, 0x05, 0xd9, 0x8b, 0x02, 0xa2,
   0xb5, 0x12, 0x9c, 0xd1, 0xde, 0x16, 0x4e, 0xb9, 0xcb, 0xd0, 0x83, 0xe8,
   0xa2, 0x50, 0x3c, 0x4e]

/-- C1 (counterexample): with the nonce the specification quotes,
`00 00 00 00 00 00 00 4a 00 00 00 00`, counter 1 does NOT produce the quoted
§2.3.2 block — that nonce is the §2.4.2 encryption nonce, whose counter-1
keystream block starts `0x22`. -/
theorem chacha20_spec_nonce_mismatch : chacha20 rfcKey specNonce 1 ≠ rfcBlock1 := by
  decide

/-- C1 (amended): on the actual RFC 8439 §2.3.2 inputs (key `00..1f`, nonce
`00 00 00 09 00 00 00 4a 00 00 00 00`, counter 1) the block function
produces exactly the 64-byte keystream block quoted by the specification. -/
theorem chacha20_rfc8439_block : chacha20 rfcKey rfcNonce232 1 = rfcBlock1 := by
  decide

/-- The state initialization exactly as the specification words it:
words 0..3 the four constants, words 4..11 the key as little-endian words,
word 12 the counter, words 13..15 the nonce as little-endian words. -/
def specInitState (key nonce : List Nat) (n : Nat) : List Nat :=
  [0x61707865, 0x3320646e, 0x79622d32, 0x6b206574] ++
    keyWords key ++ [n] ++ nonceWords nonce

/-- The block output exactly as the specification words it: for each index
`i` in 0..15, `(state-after-rounds[i] + initial[i]) mod 2^32`, written as 4
little-endian bytes at offset `4*i`. -/
def specBlock (key nonce : List Nat) (n : Nat) : List Nat :=
  let init := specInitState key nonce n
  let st := chachaRounds init
  ((List.range 16).map (fun i => write32_le ((st.getD i 0 + init.getD i 0) % M32))).flatten

/-- C2: for every 32-byte key, 12-byte nonce and 32-bit counter, the output
of `chacha20` is the per-word sum `(state-after-rounds + initial-state) mod
2^32` of the specified initial state, serialized little-endian word by
word. -/
theorem chacha20_eq_specBlock (key nonce : List Nat) (n : Nat)
    (hk : key.length = 32) (hn : nonce.length = 12) (hc : n < M32) :
    chacha20 key nonce n = specBlock key nonce n := by
  have h : n % M32 = n := Nat.mod_eq_of_lt hc
  simp only [chacha20, specBlock, initState, specInitState, CONSTANTS, h]
  generalize chachaRounds ([0x61707865, 0x3320646e, 0x79622d32, 0x6b206574] ++
    keyWords key ++ [n] ++ nonceWords nonce) = st
  simp [List.range_succ, add32, List.getD, keyWords, nonceWords]

/-- Witness for C2 at the RFC inputs. -/
theorem chacha20_eq_specBlock_witness :
    rfcKey.length = 32 ∧ specNonce.length = 12 ∧ 1 < M32 ∧
      chacha20 rfcKey specNonce 1 = specBlock rfcKey specNonce 1 :=
  ⟨by decide, by decide, by decide,
    chacha20_eq_specBlock rfcKey specNonce 1 (by decide) (by decide) (by decide)⟩

/-- `rotl32` exactly as the specification defines it:
`((x << r) | (x >> (32 - r)))` on a 32-bit unsigned word. -/
def rotl32 (x r : Nat) : Nat := Nat.lor ((x <<< r) % M32) (x >>> (32 - r))

/-- The quarter-round exactly as §4.1 of the specification words it: the
12-step sequence with wrapping 32-bit additions, XORs, and `rotl32` with
rotation amounts 16, 12, 8, 7. -/
def quarterround_spec (a b c d : Nat) (s : List Nat) : List Nat :=
  let s := s.set a ((s.getD a 0 + s.getD b 0) % M32)
  let s := s.set d (Nat.xor (s.getD d 0) (s.getD a 0))
  let s := s.set d (rotl32 (s.getD d 0) 16)
  let s := s.set c ((s.getD c 0 + s.getD d 0) % M32)
  let s := s.set b (Nat.xor (s.getD b 0) (s.getD c 0))
  let s := s.set b (rotl32 (s.getD b 0) 12)
  let s := s.set a ((s.getD a 0 + s.getD b 0) % M32)
  let s := s.set d (Nat.xor (s.getD d 0) (s.getD a 0))
  let s := s.set d (rotl32 (s.getD d 0) 8)
  let s := s.set c ((s.getD c 0 + s.getD d 0) % M32)
  let s := s.set b (Nat.xor (s.getD b 0) (s.getD c 0))
  let s := s.set b (rotl32 (s.getD b 0) 7)
  s

/-- One double-round exactly as the specification words it: the four column
quarter-rounds followed by the four diagonal quarter-rounds. -/
def doubleRound_spec (s : List Nat) : List Nat :=
  quarterround_spec 3 4 9 14 <| quarterround_spec 2 7 8 13 <|
  quarterround_spec 1 6 11 12 <| quarterround_spec 0 5 10 15 <|
  quarterround_spec 3 7 11 15 <| quarterround_spec 2 6 10 14 <|
  quarterround_spec 1 5 9 13 <| quarterround_spec 0 4 8 12 s

theorem quarterround_eq_spec (a b c d : Nat) (s : List Nat) :
    quarterround a b c d s = quarterround_spec a b c d s := rfl

theorem doubleRound_eq_spec : doubleRound = doubleRound_spec := by
  funext s
  simp only [doubleRound, doubleRound_spec, quarterround_eq_spec]

/-- C3: the round phase of `chacha20` is exactly 10 iterations, each being
the four column quarter-rounds QR(0,4,8,12), QR(1,5,9,13), QR(2,6,10,14),
QR(3,7,11,15) followed by the four diagonal quarter-rounds QR(0,5,10,15),
QR(1,6,11,12), QR(2,7,8,13), QR(3,4,9,14), each QR the 12-step sequence of
§4.1 with wrapping additions and rotations 16, 12, 8, 7. -/
theorem chachaRounds_eq_spec (s : List Nat) :
    chachaRounds s = doubleRound_spec^[10] s := by
  rw [chachaRounds, doubleRound_eq_spec]

/-- The length of a `chacha20` keystream block is always 64 bytes. -/
theorem chacha20_length (key nonce : List Nat) (n : Nat) :
    (chacha20 key nonce n).length = 64 := rfl

/-- `ChaCha20Ietf::xor`: walk `data`, XORing in one keystream block per
64-byte stride (`to_xor = min(data.len(), buf.len())` bytes at a time) and
incrementing the counter. -/
def xorStream (key nonce : List Nat) (n : Nat) (data : List Nat) : List Nat :=
  if h : data = [] then data
  else
    let buf := chacha20 key nonce n
    let to_xor := min data.length buf.length
    List.zipWith xor32 (data.take to_xor) (buf.take to_xor) ++
      xorStream key nonce (n + 1) (data.drop to_xor)
termination_by data.length
decreasing_by
  have hb := chacha20_length key nonce n
  have hd : 0 < data.length := List.length_pos.mpr h
  simp only [List.length_drop]
  omega

theorem xorStream_nil (key nonce : List Nat) (n : Nat) :
    xorStream key nonce n [] = [] := by
  rw [xorStream]
  simp

theorem xorStream_ne_nil (key nonce : List Nat) (n : Nat) (data : List Nat)
    (h : data ≠ []) :
    xorStream key nonce n data =
      List.zipWith xor32 (data.take (min data.length 64))
        ((chacha20 key nonce n).take (min data.length 64)) ++
      xorStream key nonce (n + 1) (data.drop (min data.length 64)) := by
  rw [xorStream, dif_neg h]
  simp only [chacha20_length]

/-- The XOR driver preserves the buffer length. -/
theorem xorStream_length (key nonce : List Nat) (n : Nat) (data : List Nat) :
    (xorStream key nonce n data).length = data.length := by
  by_cases h : data = []
  · rw [h, xorStream_nil]
  · rw [xorStream_ne_nil key nonce n data h, List.length_append,
      List.length_zipWith, List.length_take, List.length_take,
      xorStream_length key nonce (n + 1) (data.drop (min data.length 64)),
      List.length_drop, chacha20_length]
    omega
termination_by data.length
decreasing_by
  have hd : 0 < data.length := List.length_pos.mpr h
  simp only [List.length_drop]
  omega

/-- C4: one pass of the XOR driver consumes `min(64, L)` bytes — the output
is the first `min(64, L)` bytes of `data` XORed with the matching prefix of
the counter-`c` block, followed by the driver on the rest at counter `c+1`;
in particular a 128-byte buffer at counter 0 splits into the first 64 bytes
at counter 0 followed by the last 64 at counter 1, and a partial last block
XORs only the remaining bytes. -/
theorem xorStream_counter_step (key nonce : List Nat) (c : Nat) (data : List Nat)
    (h : data ≠ []) :
    xorStream key nonce c data =
      List.zipWith xor32 (data.take (min 64 data.length))
        ((chacha20 key nonce c).take (min 64 data.length)) ++
      xorStream key nonce (c + 1) (data.drop (min 64 data.length)) ∧
    (data.length = 128 →
      xorStream key nonce c data =
        xorStream key nonce c (data.take 64) ++
        xorStream key nonce (c + 1) (data.drop 64)) := by
  constructor
  · rw [Nat.min_comm]
    exact xorStream_ne_nil key nonce c data h
  · intro h128
    have hlen : (data.take 64).length = 64 := by
      rw [List.length_take, h128]
      omega
    have hne : data.take 64 ≠ [] := by
      intro hcon
      rw [hcon] at hlen
      simp at hlen
    have hmin : min data.length 64 = 64 := by omega
    have hmin2 : min (data.take 64).length 64 = 64 := by omega
    rw [xorStream_ne_nil key nonce c data h,
      xorStream_ne_nil key nonce c (data.take 64) hne, hmin, hmin2,
      List.take_take, List.drop_eq_nil_of_le (by omega : (data.take 64).length ≤ 64),
      xorStream_nil, List.append_nil]
    simp

/-- Witness for C4 on a concrete 3-byte buffer. -/
theorem xorStream_counter_step_witness :
    ([5, 6, 7] : List Nat) ≠ [] ∧
      (xorStream rfcKey specNonce 0 [5, 6, 7] =
        List.zipWith xor32 ([5, 6, 7].take (min 64 ([5, 6, 7] : List Nat).length))
          ((chacha20 rfcKey specNonce 0).take (min 64 ([5, 6, 7] : List Nat).length)) ++
        xorStream rfcKey specNonce 1 ([5, 6, 7].drop (min 64 ([5, 6, 7] : List Nat).length)) ∧
      (([5, 6, 7] : List Nat).length = 128 →
        xorStream rfcKey specNonce 0 [5, 6, 7] =
          xorStream rfcKey specNonce 0 ([5, 6, 7].take 64) ++
          xorStream rfcKey specNonce 1 ([5, 6, 7].drop 64))) :=
  ⟨by decide, xorStream_counter_step rfcKey specNonce 0 [5, 6, 7] (by decide)⟩

/-- XOR with the same list a second time cancels, pointwise on `Nat`. -/
theorem zipWith_xor32_cancel (a : List Nat) :
    ∀ b : List Nat, a.length = b.length →
      List.zipWith xor32 (List.zipWith xor32 a b) b = a := by
  induction a with
  | nil => intro b _; simp
  | cons x xs ih =>
    intro b hb
    cases b with
    | nil => simp at hb
    | cons y ys =>
      have hx : xor32 (xor32 x y) y = x := Nat.xor_cancel_right y x
      simp only [List.zipWith_cons_cons]
      rw [ih ys (by simpa using hb), hx]

/-- C5: the keystream-XOR driver is an involution — applying it twice with
the same key, nonce and starting counter restores the buffer. -/
theorem xorStream_involution (key nonce : List Nat) (c : Nat) (data : List Nat)
    (hk : key.length = 32) (hn : nonce.length = 12) :
    xorStream key nonce c (xorStream key nonce c data) = data := by
  clear hk hn
  suffices H : ∀ L (c : Nat) (data : List Nat), data.length = L →
      xorStream key nonce c (xorStream key nonce c data) = data by
    exact H data.length c data rfl
  intro L
  induction L using Nat.strong_induction_on with
  | _ L ih =>
    intro c data hL
    subst hL
    by_cases h : data = []
    · rw [h, xorStream_nil, xorStream_nil]
    · have hd : 0 < data.length := List.length_pos.mpr h
      have hb : (chacha20 key nonce c).length = 64 := chacha20_length key nonce c
      set t := min data.length 64 with ht
      have ht1 : 1 ≤ t := by omega
      have htL : t ≤ data.length := by omega
      have hZlen :
          (List.zipWith xor32 (data.take t) ((chacha20 key nonce c).take t)).length = t := by
        rw [List.length_zipWith, List.length_take, List.length_take, hb]
        omega
      have hRlen :
          (xorStream key nonce (c + 1) (data.drop t)).length = data.length - t := by
        rw [xorStream_length, List.length_drop]
      rw [xorStream_ne_nil key nonce c data h, ← ht]
      have hEne :
          List.zipWith xor32 (data.take t) ((chacha20 key nonce c).take t) ++
            xorStream key nonce (c + 1) (data.drop t) ≠ [] := by
        intro hcon
        have := congrArg List.length hcon
        rw [List.length_append, hZlen, hRlen] at this
        simp at this
        omega
      rw [xorStream_ne_nil key nonce c _ hEne]
      have hElen :
          (List.zipWith xor32 (data.take t) ((chacha20 key nonce c).take t) ++
            xorStream key nonce (c + 1) (data.drop t)).length = data.length := by
        rw [List.length_append, hZlen, hRlen]
        omega
      rw [hElen, ← ht, List.take_left' hZlen, List.drop_left' hZlen,
        zipWith_xor32_cancel _ _ (by rw [List.length_take, List.length_take, hb]; omega),
        ih (data.length - t) (by omega) (c + 1) (data.drop t) (by rw [List.length_drop])]
      exact List.take_append_drop t data

/-- Witness for C5 on a concrete 5-byte buffer. -/
theorem xorStream_involution_witness :
    rfcKey.length = 32 ∧ specNonce.length = 12 ∧
      xorStream rfcKey specNonce 7 (xorStream rfcKey specNonce 7 [1, 2, 3, 4, 5]) =
        [1, 2, 3, 4, 5] :=
  ⟨by decide, by decide,
    xorStream_involution rfcKey specNonce 7 [1, 2, 3, 4, 5] (by decide) (by decide)⟩

/-- C10: the XOR driver terminates — on an empty buffer it returns the
buffer unchanged without entering the loop, and on a non-empty buffer each
iteration consumes `to_xor = min(|data|, |block|) ≥ 1` bytes, so the
remaining length strictly decreases. -/
theorem xorStream_terminates (key nonce : List Nat) (n : Nat) :
    xorStream key nonce n [] = [] ∧
    ∀ data : List Nat, data ≠ [] →
      1 ≤ min data.length (chacha20 key nonce n).length ∧
      (data.drop (min data.length (chacha20 key nonce n).length)).length <
        data.length := by
  refine ⟨xorStream_nil key nonce n, fun data h => ?_⟩
  have hd : 0 < data.length := List.length_pos.mpr h
  rw [chacha20_length, List.length_drop]
  omega

/-- Witness for C10 on a concrete 1-byte buffer. -/
theorem xorStream_terminates_witness :
    xorStream rfcKey specNonce 0 [] = [] ∧
      (([9] : List Nat) ≠ [] →
        1 ≤ min ([9] : List Nat).length (chacha20 rfcKey specNonce 0).length ∧
        (([9] : List Nat).drop
            (min ([9] : List Nat).length (chacha20 rfcKey specNonce 0).length)).length <
          ([9] : List Nat).length) :=
  ⟨(xorStream_terminates rfcKey specNonce 0).1,
    fun h => (xorStream_terminates rfcKey specNonce 0).2 [9] h⟩

/-- Modelled from the spec: the crate's single error kind — API misuse with
a human-readable sub-message — together with a propagated external error
(the RNG failure case of `new_sec_key`). -/
inductive ChachaPolyErr
  | ApiMisuse (msg : String)
  | External (msg : String)
deriving DecidableEq

/-- `CHACHA20_MAX` on 64-bit platforms: `2^32 * 64` bytes. -/
def CHACHA20_MAX : Nat := 4294967296 * 64

/-- `Cipher::encrypt`: validate key length, nonce length, payload size and
buffer size, then XOR the first `plaintext_len` bytes in place with the
keystream starting at counter 0.  The pair is (final buffer state, returned
result). -/
def encrypt (buf : List Nat) (plaintext_len : Nat) (key nonce : List Nat) :
    List Nat × Except ChachaPolyErr Nat :=
  if key.length ≠ 32 then (buf, .error (.ApiMisuse "Invalid key length"))
  else if nonce.length ≠ 12 then (buf, .error (.ApiMisuse "Invalid nonce length"))
  else if plaintext_len > CHACHA20_MAX then (buf, .error (.ApiMisuse "Too much data"))
  else if plaintext_len > buf.length then (buf, .error (.ApiMisuse "Buffer is too small"))
  else (xorStream key nonce 0 (buf.take plaintext_len) ++ buf.drop plaintext_len,
    .ok plaintext_len)

/-- `Cipher::encrypt_to`: same validation against `plaintext.len()`, then
copy the plaintext into the buffer prefix and XOR it in place. -/
def encrypt_to (buf plaintext key nonce : List Nat) :
    List Nat × Except ChachaPolyErr Nat :=
  if key.length ≠ 32 then (buf, .error (.ApiMisuse "Invalid key length"))
  else if nonce.length ≠ 12 then (buf, .error (.ApiMisuse "Invalid nonce length"))
  else if plaintext.length > CHACHA20_MAX then (buf, .error (.ApiMisuse "Too much data"))
  else if plaintext.length > buf.length then (buf, .error (.ApiMisuse "Buffer is too small"))
  else (xorStream key nonce 0 plaintext ++ buf.drop plaintext.length,
    .ok plaintext.length)

/-- `Cipher::decrypt` delegates to `encrypt`. -/
def decrypt (buf : List Nat) (ciphertext_len : Nat) (key nonce : List Nat) :
    List Nat × Except ChachaPolyErr Nat :=
  encrypt buf ciphertext_len key nonce

/-- `Cipher::decrypt_to` delegates to `encrypt_to`. -/
def decrypt_to (buf ciphertext key nonce : List Nat) :
    List Nat × Except ChachaPolyErr Nat :=
  encrypt_to buf ciphertext key nonce

/-- Modelled from the spec: the secure RNG collaborator — on success a byte
stream used to fill the requested 32-byte prefix, otherwise a reported
failure. -/
def RngOutcome : Type := Except String (Nat → Nat)

/-- `SecKeyGen::new_sec_key`: reject a buffer shorter than 32 bytes, then
fill `buf[0..32]` from the RNG (propagating an RNG failure) and return 32. -/
def new_sec_key (buf : List Nat) (rng : RngOutcome) :
    List Nat × Except ChachaPolyErr Nat :=
  if buf.length < 32 then (buf, .error (.ApiMisuse "Buffer is too small"))
  else
    match rng with
    | .error e => (buf, .error (.External e))
    | .ok f => ((List.range 32).map f ++ buf.drop 32, .ok 32)

/-- Modelled from the spec: the host's cipher descriptor — name, one-time
flag and the three length ranges, each range recorded as its (start, end)
bounds. -/
structure CipherInfo where
  name : String
  is_otc : Bool
  key_len_r : Nat × Nat
  nonce_len_r : Nat × Nat
  aead_tag_len_r : Nat × Nat
deriving DecidableEq

/-- `Cipher::info` for `ChaCha20Ietf`. -/
def info : CipherInfo :=
  { name := "ChaCha20Ietf", is_otc := true,
    key_len_r := (32, 32), nonce_len_r := (12, 12), aead_tag_len_r := (0, 0) }

/-- `Cipher::encrypted_len_max`. -/
def encrypted_len_max (plaintext_len : Nat) : Nat := plaintext_len

/-- C6: the API-misuse error is returned exactly when a precondition fails —
for `encrypt`/`encrypt_to`, key length ≠ 32, nonce length ≠ 12, payload
longer than `CHACHA20_MAX` (2^32·64) or buffer shorter than the payload;
for `new_sec_key`, buffer shorter than 32, with an RNG failure propagated
as the external error — and every error case leaves the buffer unmodified. -/
theorem api_misuse_conditions :
    (∀ buf : List Nat, ∀ L : Nat, ∀ key nonce : List Nat,
      ((∃ m, (encrypt buf L key nonce).2 = .error (.ApiMisuse m)) ↔
        (key.length ≠ 32 ∨ nonce.length ≠ 12 ∨ L > CHACHA20_MAX ∨ L > buf.length)) ∧
      ∀ e, (encrypt buf L key nonce).2 = .error e → (encrypt buf L key nonce).1 = buf) ∧
    (∀ buf pt key nonce : List Nat,
      ((∃ m, (encrypt_to buf pt key nonce).2 = .error (.ApiMisuse m)) ↔
        (key.length ≠ 32 ∨ nonce.length ≠ 12 ∨ pt.length > CHACHA20_MAX ∨
          pt.length > buf.length)) ∧
      ∀ e, (encrypt_to buf pt key nonce).2 = .error e → (encrypt_to buf pt key nonce).1 = buf) ∧
    (∀ buf : List Nat, ∀ rng : RngOutcome,
      ((∃ m, (new_sec_key buf rng).2 = .error (.ApiMisuse m)) ↔ buf.length < 32) ∧
      (∀ e, rng = Except.error e → ¬ buf.length < 32 →
        (new_sec_key buf rng).2 = .error (.External e)) ∧
      ∀ e, (new_sec_key buf rng).2 = .error e → (new_sec_key buf rng).1 = buf) ∧
    CHACHA20_MAX = 4294967296 * 64 := by
  refine ⟨fun buf L key nonce => ⟨?_, ?_⟩, fun buf pt key nonce => ⟨?_, ?_⟩,
    fun buf rng => ⟨?_, ?_, ?_⟩, rfl⟩
  · unfold encrypt
    split_ifs <;> simp_all
  · unfold encrypt
    split_ifs <;> simp_all
  · unfold encrypt_to
    split_ifs <;> simp_all
  · unfold encrypt_to
    split_ifs <;> simp_all
  · unfold new_sec_key
    split_ifs with h1
    · simp_all
    · cases rng with
      | error e => simp_all
      | ok f => simp_all
  · intro e he hlen
    unfold new_sec_key
    rw [if_neg hlen, he]
  · unfold new_sec_key
    split_ifs with h1
    · simp
    · cases rng with
      | error e => simp
      | ok f => simp

/-- C7: `decrypt` behaves identically to `encrypt`, and `decrypt_to`
identically to `encrypt_to`, on every input — same result, same effect on
the buffer. -/
theorem decrypt_eq_encrypt :
    (∀ buf : List Nat, ∀ L : Nat, ∀ key nonce : List Nat,
      decrypt buf L key nonce = encrypt buf L key nonce) ∧
    (∀ buf ct key nonce : List Nat,
      decrypt_to buf ct key nonce = encrypt_to buf ct key nonce) :=
  ⟨fun _ _ _ _ => rfl, fun _ _ _ _ => rfl⟩

/-- C8: the descriptor names "ChaCha20Ietf", sets the one-time-cipher flag,
records key-length bounds (32, 32), nonce-length bounds (12, 12) and
tag-length bounds (0, 0), and `encrypted_len_max` is the identity. -/
theorem info_descriptor :
    info.name = "ChaCha20Ietf" ∧ info.is_otc = true ∧
    info.key_len_r = (32, 32) ∧ info.nonce_len_r = (12, 12) ∧
    info.aead_tag_len_r = (0, 0) ∧ ∀ L, encrypted_len_max L = L :=
  ⟨rfl, rfl, rfl, rfl, rfl, fun _ => rfl⟩

/-- C9: on success `encrypt` returns `L` and `encrypt_to` returns the
plaintext length; in every case the buffer keeps its length and every byte
at index ≥ the payload length (≥ 32 for `new_sec_key`) is unchanged. -/
theorem frame_effects :
    (∀ buf : List Nat, ∀ L : Nat, ∀ key nonce : List Nat,
      (∀ m, (encrypt buf L key nonce).2 = .ok m → m = L) ∧
      (encrypt buf L key nonce).1.length = buf.length ∧
      (encrypt buf L key nonce).1.drop L = buf.drop L) ∧
    (∀ buf pt key nonce : List Nat,
      (∀ m, (encrypt_to buf pt key nonce).2 = .ok m → m = pt.length) ∧
      (encrypt_to buf pt key nonce).1.length = buf.length ∧
      (encrypt_to buf pt key nonce).1.drop pt.length = buf.drop pt.length) ∧
    (∀ buf : List Nat, ∀ rng : RngOutcome,
      (∀ m, (new_sec_key buf rng).2 = .ok m → m = 32) ∧
      (new_sec_key buf rng).1.length = buf.length ∧
      (new_sec_key buf rng).1.drop 32 = buf.drop 32) := by
  refine ⟨fun buf L key nonce => ?_, fun buf pt key nonce => ?_, fun buf rng => ?_⟩
  · unfold encrypt
    split_ifs with h1 h2 h3 h4
    · simp
    · simp
    · simp
    · simp
    · have hxl : (xorStream key nonce 0 (buf.take L)).length = L := by
        rw [xorStream_length, List.length_take]
        omega
      refine ⟨by simp, ?_, ?_⟩
      · simp only [List.length_append, hxl, List.length_drop]
        omega
      · exact List.drop_left' hxl
  · unfold encrypt_to
    split_ifs with h1 h2 h3 h4
    · simp
    · simp
    · simp
    · simp
    · have hxl : (xorStream key nonce 0 pt).length = pt.length := xorStream_length key nonce 0 pt
      refine ⟨by simp, ?_, ?_⟩
      · simp only [List.length_append, hxl, List.length_drop]
        omega
      · exact List.drop_left' hxl
  · unfold new_sec_key
    split_ifs with h1
    · simp
    · cases rng with
      | error e => simp
      | ok f =>
        have hml : ((List.range 32).map f).length = 32 := by
          rw [List.length_map, List.length_range]
        refine ⟨by simp, ?_, ?_⟩
        · simp only [List.length_append, hml, List.length_drop]
          omega
        · exact List.drop_left' hml

end ChaCha
